import Mathlib

/-!
Shallow embedding of the valora_api quote-ingestion pipeline: the source
adapters' numeric parsing (TruncgilService, HaremalAltinService, TcmbService,
ExchangeRateService), the refresh orchestrator (RefreshService.refreshMetals,
refreshForex, canRefresh, updateFetchState, updateLatestQuotes, storeQuotes),
and the historical backfill paths (backfillHistoricalForex,
backfillHistoricalMetals, hasHistoricalData).

Numbers: JavaScript numbers are modelled as exact rationals plus a NaN value
(JSNum).  The feeds parsed here never use exponent notation, so parseFloat is
modelled on sign/integer/fraction syntax only.  Database decimal columns are
modelled as the stored JSNum itself; the toFixed(6) formatting on the write
path is 6-decimal rounding of the same value and is elided, as no property
below depends on rounding.  Wall-clock reads (Date.now) and network / database
I/O results are passed in as explicit parameters.
-/

namespace Valora

/-- A JavaScript number in the exact-rational idealization: a finite rational
value or NaN.  (Infinities do not arise: every division in the embedded code
is guarded by a nonzero / positive divisor check.) -/
inductive JSNum where
  | num (q : ℚ)
  | nan
  deriving DecidableEq

/-- Addition on JS numbers; NaN propagates.  The rational is built from
numerators and denominators so that concrete runs reduce inside decide; the
lemma jadd_num below proves the result is the field sum. -/
def jadd : JSNum → JSNum → JSNum
  | .num a, .num b => .num (mkRat (a.num * b.den + b.num * a.den) (a.den * b.den))
  | _, _ => .nan

/-- Multiplication on JS numbers; NaN propagates (see jmul_num). -/
def jmul : JSNum → JSNum → JSNum
  | .num a, .num b => .num (mkRat (a.num * b.num) (a.den * b.den))
  | _, _ => .nan

/-- Division on JS numbers; NaN propagates (see jdiv_num).  Division by zero
is mapped to NaN; it is unreachable in the embedded code, whose divisions are
guarded by truthiness or positivity checks on the divisor. -/
def jdiv : JSNum → JSNum → JSNum
  | .num a, .num b => if b = 0 then .nan else .num (Rat.divInt (a.num * b.den) (a.den * b.num))
  | _, _ => .nan

/-- JS truthiness of a number: 0 and NaN are falsy. -/
def JSNum.truthy : JSNum → Bool
  | .num q => q != 0
  | .nan => false

/-- JS truthiness of a nullable number: null, 0 and NaN are falsy. -/
def optTruthy : Option JSNum → Bool
  | some x => x.truthy
  | none => false

/-- The JS expression x || 0 on a number x. -/
def jsOrZero (x : JSNum) : JSNum := if x.truthy then x else .num 0

/-- The JS comparison x > 0; false on NaN. -/
def jgtZero : JSNum → Bool
  | .num q => decide (0 < q)
  | .nan => false

/-- Value of a digit string read in base 10. -/
def digitsVal (cs : List Char) : ℕ :=
  cs.foldl (fun a c => 10 * a + (c.toNat - Char.toNat '0')) 0

/-- JS parseFloat on the numeric formats the embedded feeds emit: optional
leading whitespace, optional sign, integer digits, optional point and
fraction digits; trailing garbage is ignored; NaN when no digit is read.
The value of the digit groups i and f with f of length l is the rational
with numerator i * 10 ^ l + f and denominator 10 ^ l, that is i + f / 10 ^ l
(lemma mkRat_digits below).  Exponent notation and the Infinity literal
never occur in these feeds and are not modelled. -/
def parseFloatChars (s : List Char) : JSNum :=
  let cs := s.dropWhile (fun c => c = ' ' || c = '\t' || c = '\n' || c = '\r')
  let signAndRest : Bool × List Char :=
    match cs with
    | '-' :: rest => (true, rest)
    | '+' :: rest => (false, rest)
    | _ => (false, cs)
  let intDigits := signAndRest.2.takeWhile Char.isDigit
  let afterInt := signAndRest.2.dropWhile Char.isDigit
  let fracDigits : List Char :=
    match afterInt with
    | '.' :: r => r.takeWhile Char.isDigit
    | _ => []
  if intDigits.isEmpty && fracDigits.isEmpty then .nan
  else
    let den : ℕ := 10 ^ fracDigits.length
    let n : ℤ := digitsVal intDigits * den + digitsVal fracDigits
    .num (mkRat (if signAndRest.1 then -n else n) den)

/-- JS parseFloat on a string. -/
def parseFloat (s : String) : JSNum := parseFloatChars s.data

/-- The JS expression s.replace of all dots by nothing (thousands-separator
removal). -/
def removeDots (cs : List Char) : List Char := cs.filter (fun c => c ≠ '.')

/-- The JS expression s.replace of the first comma by a dot (decimal-comma
normalization; a string pattern replaces only the first occurrence). -/
def replaceFirstComma : List Char → List Char
  | [] => []
  | c :: rest => if c = ',' then '.' :: rest else c :: replaceFirstComma rest

/-- Keep only digits, dots and commas (the currency-symbol stripping step of
the part_018 parser variant). -/
def keepNumericChars (cs : List Char) : List Char :=
  cs.filter (fun c => c.isDigit || c = '.' || c = ',')

/-- TruncgilService.parsePrice
(src/src/services/data-sources/truncgil.service.ts lines 121-126): empty
string gives 0; otherwise remove dots, turn the first comma into a dot and
parseFloat.  No currency-symbol stripping. -/
def truncgil_parsePrice (s : String) : JSNum :=
  if s = "" then .num 0
  else parseFloatChars (replaceFirstComma (removeDots s.data))

/-- The TruncgilService.parsePrice variant of src/unnamed/part_018 lines
94-101: identical except that characters other than digits, dots and commas
are stripped first. -/
def truncgilAlt_parsePrice (s : String) : JSNum :=
  if s = "" then .num 0
  else parseFloatChars (replaceFirstComma (removeDots (keepNumericChars s.data)))

/-- HaremalAltinService.parsePrice (src/unnamed/part_015 lines 161-172):
empty string gives 0; a string containing a comma is treated as Turkish
format (remove dots, first comma to dot); otherwise the dot is the decimal
separator; either way the parseFloat result goes through the JS operator
|| 0, so NaN collapses to 0. -/
def haremaltin_parsePrice (s : String) : JSNum :=
  if s = "" then .num 0
  else if s.data.contains ',' then
    jsOrZero (parseFloatChars (replaceFirstComma (removeDots s.data)))
  else jsOrZero (parseFloatChars s.data)

/-- A normalized quote as produced by the source adapters
(type NormalizedQuote of truncgil.service.ts).  The optional opaque rawData
audit capture is elided: it is copied verbatim and never read. -/
structure NormalizedQuote where
  instrumentId : String
  ts : ℤ
  price : JSNum
  buy : Option JSNum
  sell : Option JSNum
  source : String
  deriving DecidableEq

/-- METAL_MAPPINGS of src/src/config/instruments.ts: Truncgil API key to
internal instrument id, in object insertion order. -/
def METAL_MAPPINGS : List (String × String) :=
  [("gram-altin", "gram"), ("ceyrek-altin", "ceyrek"), ("ons", "ons"),
   ("yarim-altin", "yarim"), ("tam-altin", "tam"), ("ata-altin", "ata"),
   ("gram-has-altin", "has"), ("22-ayar-bilezik", "22ayar"),
   ("14-ayar-altin", "14ayar"), ("gremse-altin", "gremse"),
   ("gumus", "gumus_gram"), ("besli-altin", "ata5"),
   ("gram-platin", "platin_gram"), ("gram-paladyum", "paladyum_gram")]

/-- FOREX_MAPPINGS of src/src/config/instruments.ts: TCMB currency code to
internal instrument id. -/
def FOREX_MAPPINGS : List (String × String) :=
  [("USD", "USDTRY"), ("EUR", "EURTRY"), ("GBP", "GBPTRY"), ("CHF", "CHFTRY"),
   ("AUD", "AUDTRY"), ("CAD", "CADTRY"), ("SAR", "SARTRY"), ("JPY", "JPYTRY")]

/-- Instrument ids of the fx category (INSTRUMENTS.fx of instruments.ts). -/
def fxInstrumentIds : List String :=
  ["USDTRY", "EURTRY", "EURUSD", "GBPTRY", "CHFTRY", "AUDTRY", "CADTRY",
   "SARTRY", "JPYTRY"]

/-- One entry of the Truncgil JSON response (TruncgilMetalData): the Turkish
field names Alis and Satis are the buy and sell price strings; the unused
change-percentage and type fields are elided. -/
structure TruncgilMetalData where
  alis : String
  satis : String
  deriving DecidableEq

/-- JS object field access data[key] on an object modelled as an association
list: the first binding of the key, none when absent. -/
def objGet (data : List (String × α)) (key : String) : Option α :=
  (data.find? (fun p => p.1 == key)).map Prod.snd

/-- Loop body of TruncgilService.parseToQuotes over METAL_MAPPINGS: for each
mapped key present in the response, parse buy and sell and emit a quote with
price the buy/sell average and source truncgil. -/
def truncgilBaseQuotes (data : List (String × TruncgilMetalData)) (now : ℤ) :
    List NormalizedQuote :=
  METAL_MAPPINGS.filterMap fun mapping =>
    match objGet data mapping.1 with
    | none => none
    | some raw =>
      let buy := truncgil_parsePrice raw.alis
      let sell := truncgil_parsePrice raw.satis
      some { instrumentId := mapping.2, ts := now,
             price := jdiv (jadd buy sell) (.num 2),
             buy := some buy, sell := some sell, source := "truncgil" }

/-- Derivation step of parseToQuotes for 14-karat gold: if a gram quote was
parsed, append a 14ayar quote scaled by 14 / 24, with the JS conditional
expression on buy and sell (null when the base side is null, zero or NaN),
tagged truncgil_calculated. -/
def derive14ayar (qs : List NormalizedQuote) (now : ℤ) : List NormalizedQuote :=
  match qs.find? (fun q => q.instrumentId == "gram") with
  | none => []
  | some g =>
    let ratio : JSNum := .num (mkRat 14 24)
    [{ instrumentId := "14ayar", ts := now,
       price := jmul g.price ratio,
       buy := if optTruthy g.buy then g.buy.map (fun b => jmul b ratio) else none,
       sell := if optTruthy g.sell then g.sell.map (fun s => jmul s ratio) else none,
       source := "truncgil_calculated" }]

/-- Derivation step of parseToQuotes for the silver ounce: if a gumus_gram
quote is present, append a gumus_ons quote scaled by the fixed constant
28.3495 grams per ounce used by the code, tagged truncgil_calculated. -/
def deriveGumusOns (qs : List NormalizedQuote) (now : ℤ) : List NormalizedQuote :=
  match qs.find? (fun q => q.instrumentId == "gumus_gram") with
  | none => []
  | some g =>
    let ratio : JSNum := .num (mkRat 283495 10000)
    [{ instrumentId := "gumus_ons", ts := now,
       price := jmul g.price ratio,
       buy := if optTruthy g.buy then g.buy.map (fun b => jmul b ratio) else none,
       sell := if optTruthy g.sell then g.sell.map (fun s => jmul s ratio) else none,
       source := "truncgil_calculated" }]

/-- TruncgilService.parseToQuotes: the mapped base quotes, then the 14ayar
derivation (looked up in the base list), then the gumus_ons derivation
(looked up in the list that already contains the 14ayar quote, as the code
pushes before the second find). -/
def parseToQuotes (data : List (String × TruncgilMetalData)) (now : ℤ) :
    List NormalizedQuote :=
  let base := truncgilBaseQuotes data now
  let withKarat := base ++ derive14ayar base now
  withKarat ++ deriveGumusOns withKarat now

/-- One Currency element of the TCMB XML document, after XML parsing: the
currency code attribute and the ForexBuying / ForexSelling string fields
(empty string models an empty or missing element). -/
structure TcmbCurrency where
  currencyCode : String
  forexBuying : String
  forexSelling : String
  deriving DecidableEq

/-- The JS expression s || zero-string applied to a field before parseFloat:
an empty (or missing) field falls back to the string 0. -/
def strOrZero (s : String) : String := if s = "" then "0" else s

/-- Per-currency body of TcmbService.parseXml: parse both sides with a zero
fallback, price is the average, and each side is kept only when strictly
positive (NaN compares false). -/
def tcmbQuoteOf (c : TcmbCurrency) (instrumentId : String) (now : ℤ) :
    NormalizedQuote :=
  let buy := parseFloat (strOrZero c.forexBuying)
  let sell := parseFloat (strOrZero c.forexSelling)
  { instrumentId := instrumentId, ts := now,
    price := jdiv (jadd buy sell) (.num 2),
    buy := if jgtZero buy then some buy else none,
    sell := if jgtZero sell then some sell else none,
    source := "tcmb" }

/-- Loop of TcmbService.parseXml over FOREX_MAPPINGS: for each mapped TCMB
code found among the document currencies, emit the mapped quote. -/
def tcmbBaseQuotes (cs : List TcmbCurrency) (now : ℤ) : List NormalizedQuote :=
  FOREX_MAPPINGS.filterMap fun mapping =>
    (cs.find? (fun c => c.currencyCode == mapping.1)).map
      (fun c => tcmbQuoteOf c mapping.2 now)

/-- EURUSD derivation of TcmbService.parseXml: when EURTRY and USDTRY were
both parsed and the USDTRY price is positive, append the cross rate with
bid/ask-inverted buy and sell where both legs are truthy, tagged
tcmb_calculated. -/
def deriveEurUsd (qs : List NormalizedQuote) (now : ℤ) : List NormalizedQuote :=
  match qs.find? (fun q => q.instrumentId == "EURTRY"),
        qs.find? (fun q => q.instrumentId == "USDTRY") with
  | some e, some u =>
    if jgtZero u.price then
      [{ instrumentId := "EURUSD", ts := now,
         price := jdiv e.price u.price,
         buy := match e.buy, u.sell with
                | some b, some s => if b.truthy && s.truthy then some (jdiv b s) else none
                | _, _ => none,
         sell := match e.sell, u.buy with
                 | some s, some b => if s.truthy && b.truthy then some (jdiv s b) else none
                 | _, _ => none,
         source := "tcmb_calculated" }]
    else []
  | _, _ => []

/-- TcmbService.parseXml on an already-XML-parsed currency list: the mapped
quotes followed by the optional EURUSD derivation. -/
def tcmbParseQuotes (cs : List TcmbCurrency) (now : ℤ) : List NormalizedQuote :=
  let base := tcmbBaseQuotes cs now
  base ++ deriveEurUsd base now

/-- Outcome of the historical TCMB fetch for one date, as seen by
TcmbService.fetchHistoricalFx after the HTTP round trip: a 404, another
non-2xx status, a transport failure, or a payload of parsed currencies. -/
inductive TcmbHistResponse where
  | notFound
  | httpError (status : ℤ)
  | transportFail
  | payload (currencies : List TcmbCurrency)
  deriving DecidableEq

/-- TcmbService.fetchHistoricalFx: 404 returns the empty list directly; any
thrown error (non-2xx status, transport failure) is caught by the outer
catch, which also returns the empty list; a payload is parsed and every
quote timestamp is overridden with the historical date. -/
def fetchHistoricalFx (resp : TcmbHistResponse) (now histTs : ℤ) :
    List NormalizedQuote :=
  match resp with
  | .notFound => []
  | .httpError _ => []
  | .transportFail => []
  | .payload cs => (tcmbParseQuotes cs now).map (fun q => { q with ts := histTs })

/-- Currency-to-instrument table of ExchangeRateService.parseRates. -/
def EXCHANGERATE_MAPPINGS : List (String × String) :=
  [("USD", "USDTRY"), ("EUR", "EURTRY"), ("GBP", "GBPTRY"), ("CHF", "CHFTRY"),
   ("AUD", "AUDTRY"), ("CAD", "CADTRY"), ("SAR", "SARTRY"), ("JPY", "JPYTRY")]

/-- ExchangeRateService.parseRates: rates is the JSON rates map (EUR base).
When the TRY rate is missing or zero the whole list is empty; otherwise each
mapped currency with a nonzero rate yields a TRY pair priced eurTry divided
by eurToForeign with null buy and sell, and an EURUSD cross rate with null
buy and sell is appended when both legs parsed and USDTRY is positive. -/
def exchangeRateParseRates (rates : List (String × ℚ)) (now : ℤ) :
    List NormalizedQuote :=
  match objGet rates "TRY" with
  | none => []
  | some eurTry =>
    if eurTry = 0 then []
    else
      let base := EXCHANGERATE_MAPPINGS.filterMap fun mapping =>
        match objGet rates mapping.1 with
        | none => none
        | some eurToForeign =>
          if eurToForeign = 0 then none
          else some { instrumentId := mapping.2, ts := now,
                      price := jdiv (.num eurTry) (.num eurToForeign),
                      buy := none, sell := none, source := "exchangerate_host" }
      base ++
        (match base.find? (fun q => q.instrumentId == "EURTRY"),
               base.find? (fun q => q.instrumentId == "USDTRY") with
         | some e, some u =>
           if jgtZero u.price then
             [{ instrumentId := "EURUSD", ts := now,
                price := jdiv e.price u.price,
                buy := none, sell := none,
                source := "exchangerate_host_calculated" }]
           else []
         | _, _ => [])

/-- A row of the historical quotes table.  The decimal columns hold the
quote values (the toFixed(6) formatting is pure rounding and is elided); the
surrogate id, created-at column and rawData capture are elided. -/
structure HistRow where
  instrumentId : String
  ts : ℤ
  price : JSNum
  buy : Option JSNum
  sell : Option JSNum
  source : String
  deriving DecidableEq

/-- A row of the latest_quotes snapshot table (primary key instrumentId). -/
structure LatestRow where
  instrumentId : String
  ts : ℤ
  price : JSNum
  price24hAgo : Option JSNum
  ts24hAgo : Option ℤ
  buy : Option JSNum
  sell : Option JSNum
  source : String
  deriving DecidableEq

/-- Terminal or transitional status of a fetch-state row. -/
inductive FetchStatus where
  | success
  | error
  | in_progress
  deriving DecidableEq

/-- A row of the fetch_state table (primary key the category key). -/
structure FetchRow where
  key : String
  lastSuccessTs : Option ℤ
  lastAttemptTs : Option ℤ
  lastStatus : FetchStatus
  lastError : Option String
  consecutiveFailures : ℕ
  deriving DecidableEq

/-- The database: append-only historical series, one-row-per-instrument
latest snapshot, and the per-category fetch-state ledger.  Tables are lists
in insertion order. -/
structure Db where
  hist : List HistRow
  latest : List LatestRow
  fetch : List FetchRow
  deriving DecidableEq

/-- The empty database. -/
def emptyDb : Db := { hist := [], latest := [], fetch := [] }

/-- Insert-or-update by a key: if some row has the new row's key, every such
row is replaced in place (the key is unique in practice); otherwise the row
is appended.  This is the onConflictDoUpdate upsert of the drizzle calls. -/
def upsertBy (key : α → String) (tbl : List α) (row : α) : List α :=
  if tbl.any (fun r => key r == key row) then
    tbl.map (fun r => if key r == key row then row else r)
  else tbl ++ [row]

/-- The fetch-state row of a category (findFirst where key equals the
category). -/
def findFetchRow (st : Db) (category : String) : Option FetchRow :=
  st.fetch.find? (fun r => r.key == category)

/-- Cooldown between refresh attempts in milliseconds
(RefreshService.cooldownMs). -/
def cooldownMs : ℤ := 10000

/-- RefreshService.canRefresh: true when the category has no fetch-state row
or a falsy (absent or zero) last-attempt timestamp, or when at least
cooldownMs milliseconds passed since the last attempt.  Timestamps are in
seconds, so the elapsed time is scaled by 1000 before the comparison. -/
def canRefresh (st : Db) (category : String) (now : ℤ) : Bool :=
  match findFetchRow st category with
  | none => true
  | some s =>
    match s.lastAttemptTs with
    | none => true
    | some t => if t = 0 then true else decide ((now - t) * 1000 ≥ cooldownMs)

/-- RefreshService.updateFetchState: upsert the category row; an error
increments the stored consecutive-failure counter by one, and any other
status (success or in_progress) resets it to zero; a success stamps the
last-success time, otherwise the previous one is kept; the attempt time is
always stamped.  The alert at five consecutive failures is a log call and
leaves no state. -/
def updateFetchState (st : Db) (category : String) (status : FetchStatus)
    (errorMsg : Option String) (now : ℤ) : Db :=
  let existing := findFetchRow st category
  let consecutiveFailures : ℕ :=
    if status = .error then
      (match existing with | some s => s.consecutiveFailures | none => 0) + 1
    else 0
  let row : FetchRow :=
    { key := category,
      lastSuccessTs := if status = .success then some now
                       else existing.bind (fun s => s.lastSuccessTs),
      lastAttemptTs := some now,
      lastStatus := status,
      lastError := errorMsg,
      consecutiveFailures := consecutiveFailures }
  { st with fetch := upsertBy (fun r => r.key) st.fetch row }

/-- The historical row stored for a quote by storeQuotes and
storeQuotesBatch: a falsy buy or sell (null, zero or NaN) is stored as
null, mirroring the JS conditional around toFixed. -/
def histRowOfQuote (q : NormalizedQuote) : HistRow :=
  { instrumentId := q.instrumentId, ts := q.ts, price := q.price,
    buy := if optTruthy q.buy then q.buy else none,
    sell := if optTruthy q.sell then q.sell else none,
    source := q.source }

/-- RefreshService.storeQuotes: insert one historical row per quote, in
order. -/
def storeQuotes (st : Db) (qs : List NormalizedQuote) : Db :=
  { st with hist := st.hist ++ qs.map histRowOfQuote }

/-- RefreshService.storeQuotesBatch: the same rows inserted in chunks of
500; the chunking only groups the inserts into transactions and the
resulting row sequence is identical. -/
def storeQuotesBatch (st : Db) (qs : List NormalizedQuote) : Db :=
  { st with hist := st.hist ++ qs.map histRowOfQuote }

/-- The first historical row, in ascending timestamp order, of a list: the
row with the smallest timestamp, earliest-inserted first on ties (findFirst
with orderBy ascending ts). -/
def minTsRow : List HistRow → Option HistRow
  | [] => none
  | r :: rest =>
    match minTsRow rest with
    | none => some r
    | some m => if m.ts < r.ts then some m else some r

/-- The 24-hours-ago lookup of RefreshService.updateLatestQuotes: the oldest
historical row of the quote's instrument whose timestamp lies within twelve
hours of the point 24 hours before the quote's timestamp. -/
def findQuote24h (hist : List HistRow) (q : NormalizedQuote) : Option HistRow :=
  let ts24hAgo := q.ts - 24 * 60 * 60
  minTsRow (hist.filter (fun r =>
    r.instrumentId == q.instrumentId &&
    decide (ts24hAgo - 12 * 60 * 60 ≤ r.ts) &&
    decide (r.ts ≤ ts24hAgo + 12 * 60 * 60)))

/-- The snapshot row written for one quote by updateLatestQuotes: the quote
values plus the resolved 24-hours-ago price and timestamp (null when no row
fell in the window). -/
def latestRowOfQuote (hist : List HistRow) (q : NormalizedQuote) : LatestRow :=
  let ref := findQuote24h hist q
  { instrumentId := q.instrumentId, ts := q.ts, price := q.price,
    price24hAgo := ref.map (fun r => r.price),
    ts24hAgo := ref.map (fun r => r.ts),
    buy := if optTruthy q.buy then q.buy else none,
    sell := if optTruthy q.sell then q.sell else none,
    source := q.source }

/-- One iteration of the updateLatestQuotes loop: resolve the 24h reference
against the historical table and upsert the snapshot row keyed by
instrument. -/
def updateLatestQuotesStep (st : Db) (q : NormalizedQuote) : Db :=
  let row := latestRowOfQuote st.hist q
  { st with latest := upsertBy (fun r => r.instrumentId) st.latest row }

/-- RefreshService.updateLatestQuotes: the per-quote upsert loop in list
order. -/
def updateLatestQuotes (st : Db) (qs : List NormalizedQuote) : Db :=
  qs.foldl updateLatestQuotesStep st

/-- Result of a live refresh call, with instrumentation counting how many
times each adapter fetch ran in this call (the code reaches the primary
fetch exactly when the cooldown guard passes, and the fx fallback fetch
exactly when the primary path failed). -/
structure RefreshReturn where
  db : Db
  success : Bool
  quotesCount : ℕ
  primaryCalls : ℕ
  fallbackCalls : ℕ
  deriving DecidableEq

/-- RefreshService.refreshMetals.  External effects are inputs: now is the
clock, cfClearance the optional configured cookie, primaryResult what the
Truncgil fetch returned or threw, haremResult what the Haremaltin top-up
fetch returned or threw (consulted only when the cookie is set).  The guard
rejection returns without fetching; an empty primary result is an error; a
nonempty Haremaltin result is appended; then the store, snapshot upsert and
terminal fetch-state write happen in order. -/
def refreshMetals (st : Db) (now : ℤ) (cfClearance : Option String)
    (primaryResult : Except String (List NormalizedQuote))
    (haremResult : Except String (List NormalizedQuote)) : RefreshReturn :=
  if canRefresh st "metals" now then
    let st1 := updateFetchState st "metals" .in_progress none now
    match primaryResult with
    | .error e =>
      { db := updateFetchState st1 "metals" .error (some e) now,
        success := false, quotesCount := 0, primaryCalls := 1, fallbackCalls := 0 }
    | .ok qs =>
      if qs.isEmpty then
        { db := updateFetchState st1 "metals" .error
            (some "No metals data received from Truncgil") now,
          success := false, quotesCount := 0, primaryCalls := 1, fallbackCalls := 0 }
      else
        let merged : List NormalizedQuote × ℕ :=
          match cfClearance with
          | none => (qs, 0)
          | some _ =>
            match haremResult with
            | .ok hq => (if hq.isEmpty then qs else qs ++ hq, 1)
            | .error _ => (qs, 1)
        let st2 := storeQuotes st1 merged.1
        let st3 := updateLatestQuotes st2 merged.1
        { db := updateFetchState st3 "metals" .success none now,
          success := true, quotesCount := merged.1.length,
          primaryCalls := 1, fallbackCalls := merged.2 }
  else
    { db := st, success := false, quotesCount := 0,
      primaryCalls := 0, fallbackCalls := 0 }

/-- RefreshService.refreshForex.  primaryResult is what the TCMB fetch
returned or threw, fallbackResult what the ExchangeRate.host fetch returned
or threw (consulted only on primary failure, where an empty primary list is
a failure).  An empty fallback list or fallback exception fails the
category; a usable quote list is stored, upserted and recorded as success.
-/
def refreshForex (st : Db) (now : ℤ)
    (primaryResult : Except String (List NormalizedQuote))
    (fallbackResult : Except String (List NormalizedQuote)) : RefreshReturn :=
  if canRefresh st "fx" now then
    let st1 := updateFetchState st "fx" .in_progress none now
    let primaryOutcome : Except String (List NormalizedQuote) :=
      match primaryResult with
      | .ok qs => if qs.isEmpty then .error "No forex data received from TCMB" else .ok qs
      | .error e => .error e
    match primaryOutcome with
    | .ok qs =>
      let st2 := updateLatestQuotes (storeQuotes st1 qs) qs
      { db := updateFetchState st2 "fx" .success none now,
        success := true, quotesCount := qs.length,
        primaryCalls := 1, fallbackCalls := 0 }
    | .error _ =>
      match fallbackResult with
      | .ok fq =>
        if fq.isEmpty then
          { db := updateFetchState st1 "fx" .error (some "All forex sources failed") now,
            success := false, quotesCount := 0, primaryCalls := 1, fallbackCalls := 1 }
        else
          let st2 := updateLatestQuotes (storeQuotes st1 fq) fq
          { db := updateFetchState st2 "fx" .success none now,
            success := true, quotesCount := fq.length,
            primaryCalls := 1, fallbackCalls := 1 }
      | .error _ =>
        { db := updateFetchState st1 "fx" .error (some "All forex sources failed") now,
          success := false, quotesCount := 0, primaryCalls := 1, fallbackCalls := 1 }
  else
    { db := st, success := false, quotesCount := 0,
      primaryCalls := 0, fallbackCalls := 0 }

/-- RefreshService.hasHistoricalData: the cutoff (now minus the target
years, computed from the clock) is a parameter; a 30-day buffer is added,
and the check asks whether the oldest stored quote row, with no filter on
instrument or category, is at or before the buffered cutoff.  The category
argument is accepted and never used, exactly as in the source. -/
def hasHistoricalData (category : String) (st : Db) (cutoffTs : ℤ) : Bool :=
  let bufferTs := cutoffTs + 30 * 24 * 60 * 60
  match minTsRow st.hist with
  | none => false
  | some oldest => decide (oldest.ts ≤ bufferTs)

/-- Result of a backfill call. -/
structure BackfillReturn where
  db : Db
  success : Bool
  quotesCount : ℕ
  deriving DecidableEq

/-- RefreshService.backfillHistoricalForex: skip when hasHistoricalData
holds for the fx category; otherwise fetched is what
tcmbService.backfillHistoricalData returned (empty means failure), stored in
batch.  No fetch-state write and no snapshot write occur on this path. -/
def backfillHistoricalForex (st : Db) (cutoffTs : ℤ)
    (fetched : List NormalizedQuote) : BackfillReturn :=
  if hasHistoricalData "fx" st cutoffTs then
    { db := st, success := true, quotesCount := 0 }
  else if fetched.isEmpty then
    { db := st, success := false, quotesCount := 0 }
  else
    { db := storeQuotesBatch st fetched, success := true,
      quotesCount := fetched.length }

/-- BACKFILL_INSTRUMENTS of refresh.service.ts: haremaltin code to
instrument id. -/
def BACKFILL_INSTRUMENTS : List (String × String) :=
  [("AYAR22", "22ayar"), ("ONS", "ons"), ("ALTIN", "has"),
   ("KULCEALTIN", "gram"), ("CEYREK_YENI", "ceyrek"), ("YARIM_YENI", "yarim"),
   ("TEK_YENI", "tam"), ("ATA_YENI", "ata"), ("ATA5_YENI", "ata5"),
   ("GREMESE_YENI", "gremse"), ("GUMUSTRY", "gumus_gram"),
   ("XAGUSD", "gumus_ons"), ("GUMUSUSD", "gumus_usd"),
   ("XPTUSD", "platin_ons"), ("XPDUSD", "paladyum_ons"),
   ("PLATIN", "platin"), ("PALADYUM", "paladyum"), ("USDKG", "usdkg"),
   ("EURKG", "eurkg"), ("XAUXAG", "xauxag")]

/-- ALTININ_BACKFILL_INSTRUMENTS of refresh.service.ts. -/
def ALTININ_BACKFILL_INSTRUMENTS : List (String × String) :=
  [("Y14", "14ayar")]

/-- The inline per-instrument existing-data check of
backfillHistoricalMetals: the first row, in ascending timestamp order, of
the given instrument at or before the buffered cutoff. -/
def metalsOldestCheck (st : Db) (instrumentId : String) (bufferTs : ℤ) :
    Option HistRow :=
  minTsRow (st.hist.filter (fun r =>
    r.instrumentId == instrumentId && decide (r.ts ≤ bufferTs)))

/-- Accumulator of the backfillHistoricalMetals instrument loops. -/
structure BackfillTally where
  db : Db
  totalQuotes : ℕ
  skippedCount : ℕ
  failedCount : ℕ
  deriving DecidableEq

/-- One iteration of a backfillHistoricalMetals instrument loop (the
haremaltin and altin.in loops share this shape): skip when the instrument
already has a row at or before the buffered cutoff; count a failure when the
archive fetch threw; do nothing on an empty result; otherwise store the
batch and add to the total. -/
def backfillMetalsStep (bufferTs : ℤ)
    (results : String → Except String (List NormalizedQuote))
    (acc : BackfillTally) (entry : String × String) : BackfillTally :=
  match metalsOldestCheck acc.db entry.2 bufferTs with
  | some _ => { acc with skippedCount := acc.skippedCount + 1 }
  | none =>
    match results entry.1 with
    | .error _ => { acc with failedCount := acc.failedCount + 1 }
    | .ok qs =>
      if qs.isEmpty then acc
      else { acc with db := storeQuotesBatch acc.db qs,
                      totalQuotes := acc.totalQuotes + qs.length }

/-- RefreshService.backfillHistoricalMetals: nothing happens without the
configured cf_clearance cookie; otherwise the haremaltin instrument list and
then the altin.in instrument list are processed with the per-instrument
loop, each archive modelled as a map from instrument code to its fetch
outcome.  No fetch-state write and no snapshot write occur on this path. -/
def backfillHistoricalMetals (st : Db) (cfClearance : Option String)
    (cutoffTs : ℤ)
    (haremResults altinResults : String → Except String (List NormalizedQuote)) :
    BackfillTally × Bool :=
  match cfClearance with
  | none => ({ db := st, totalQuotes := 0, skippedCount := 0, failedCount := 0 }, false)
  | some _ =>
    let bufferTs := cutoffTs + 30 * 24 * 60 * 60
    let start : BackfillTally :=
      { db := st, totalQuotes := 0, skippedCount := 0, failedCount := 0 }
    let afterHarem :=
      BACKFILL_INSTRUMENTS.foldl (backfillMetalsStep bufferTs haremResults) start
    let afterAltin :=
      ALTININ_BACKFILL_INSTRUMENTS.foldl (backfillMetalsStep bufferTs altinResults)
        afterHarem
    (afterAltin, true)

/-- Sample Truncgil response whose gram instrument has a parsed buy of zero
(the feed can publish a zero side, compare the 0,00 case in the unit
tests). -/
def zeroBuySample : List (String × TruncgilMetalData) :=
  [("gram-altin", { alis := "0,00", satis := "2,00" })]

/-- Sample database whose only historical row belongs to the metals
instrument gram; it contains no row of any fx instrument. -/
def metalsOnlyDb : Db :=
  { hist := [{ instrumentId := "gram", ts := 0, price := .num 1,
               buy := none, sell := none, source := "truncgil" }],
    latest := [], fetch := [] }

/-- Sample cutoff timestamp (ten years before a 2026 clock, in seconds). -/
def sampleCutoffTs : ℤ := 1470000000

/-- Sample nonempty fx quote list an archive fetch could return. -/
def sampleFxFetched : List NormalizedQuote :=
  [{ instrumentId := "USDTRY", ts := 1500000000, price := .num 3,
     buy := none, sell := none, source := "tcmb" }]

/-- Sample TCMB currency record with only the buying side present. -/
def sampleUsdCurrency : TcmbCurrency :=
  { currencyCode := "USD", forexBuying := "10.5", forexSelling := "" }

/-- Sample quote as the fx fallback adapter produces it (null spread). -/
def sampleFallbackQuote : NormalizedQuote :=
  { instrumentId := "USDTRY", ts := 100, price := .num 30,
    buy := none, sell := none, source := "exchangerate_host" }

/-!  Theorems.  First the bridge lemmas relating the numerator/denominator
arithmetic of the JSNum operations to the field operations of ℚ, then
library lemmas about the table model, then the claim theorems. -/

/-- jadd is rational addition on finite values. -/
theorem jadd_num (a b : ℚ) : jadd (.num a) (.num b) = .num (a + b) := by
  rw [jadd, Rat.add_def']

/-- jmul is rational multiplication on finite values. -/
theorem jmul_num (a b : ℚ) : jmul (.num a) (.num b) = .num (a * b) := by
  rw [jmul, ← Rat.mkRat_mul_mkRat, Rat.mkRat_self, Rat.mkRat_self]

/-- jdiv is rational division on finite values with a nonzero divisor. -/
theorem jdiv_num (a b : ℚ) (h : b ≠ 0) : jdiv (.num a) (.num b) = .num (a / b) := by
  rw [jdiv, if_neg h, Rat.div_def']

/-- mkRat is division of the casts. -/
theorem mkRat_eq_div' (n : ℤ) (d : ℕ) : (mkRat n d : ℚ) = (n : ℚ) / d := by
  rw [Rat.mkRat_eq_divInt, Rat.divInt_eq_div]
  norm_num

/-- The digit-group value used by parseFloatChars is the usual decimal
value: integer part plus fraction over ten to the fraction length. -/
theorem mkRat_digits (i f l : ℕ) :
    (mkRat (i * 10 ^ l + f) (10 ^ l) : ℚ) = (i : ℚ) + (f : ℚ) / 10 ^ l := by
  rw [Rat.mkRat_eq_divInt, Rat.divInt_eq_div]
  push_cast
  field_simp

/-- An empty list has no ascending-order first row. -/
theorem minTsRow_eq_none {l : List HistRow} : minTsRow l = none ↔ l = [] := by
  cases l with
  | nil => simp [minTsRow]
  | cons r rest =>
    simp only [minTsRow]
    cases minTsRow rest with
    | none => simp
    | some m =>
      by_cases h : m.ts < r.ts <;> simp [h]

/-- The ascending-order first row is a row of the list. -/
theorem minTsRow_mem : ∀ {l : List HistRow} {r : HistRow},
    minTsRow l = some r → r ∈ l := by
  intro l
  induction l with
  | nil => intro r h; simp [minTsRow] at h
  | cons a t ih =>
    intro r h
    rcases ht : minTsRow t with _ | m
    · simp only [minTsRow, ht] at h
      injection h with h2
      subst h2
      exact List.mem_cons_self _ _
    · simp only [minTsRow, ht] at h
      by_cases hlt : m.ts < a.ts
      · rw [if_pos hlt] at h
        injection h with h2
        subst h2
        exact List.mem_cons_of_mem _ (ih ht)
      · rw [if_neg hlt] at h
        injection h with h2
        subst h2
        exact List.mem_cons_self _ _

/-- The ascending-order first row has the smallest timestamp. -/
theorem minTsRow_le : ∀ {l : List HistRow} {r : HistRow},
    minTsRow l = some r → ∀ x ∈ l, r.ts ≤ x.ts := by
  intro l
  induction l with
  | nil => intro r h; simp [minTsRow] at h
  | cons a t ih =>
    intro r h x hx
    rcases ht : minTsRow t with _ | m
    · simp only [minTsRow, ht] at h
      injection h with h2
      subst h2
      rcases List.mem_cons.mp hx with rfl | hxt
      · exact le_refl _
      · exact absurd (minTsRow_eq_none.mp ht ▸ hxt) (List.not_mem_nil x)
    · simp only [minTsRow, ht] at h
      by_cases hlt : m.ts < a.ts
      · rw [if_pos hlt] at h
        injection h with h2
        subst h2
        rcases List.mem_cons.mp hx with rfl | hxt
        · exact le_of_lt hlt
        · exact ih ht x hxt
      · rw [if_neg hlt] at h
        injection h with h2
        subst h2
        rcases List.mem_cons.mp hx with rfl | hxt
        · exact le_refl _
        · exact le_trans (not_lt.mp hlt) (ih ht x hxt)

/-- Replacing every key match in a table that has one yields the new row on
lookup by that key. -/
theorem find?_map_replace (key : α → String) (t : List α) (row : α)
    (h : t.any (fun r => key r == key row) = true) :
    (t.map (fun r => if key r == key row then row else r)).find?
      (fun r => key r == key row) = some row := by
  induction t with
  | nil => simp at h
  | cons a t ih =>
    by_cases ha : (key a == key row) = true
    · simp [List.find?, ha]
    · have ha' : (key a == key row) = false := by simpa using ha
      simp only [List.map_cons, ha', Bool.false_eq_true, if_false, List.find?, ha']
      exact ih (by simpa [List.any_cons, ha'] using h)

/-- Appending a row to a table with no key match yields the new row on
lookup by that key. -/
theorem find?_append_missing (key : α → String) (t : List α) (row : α)
    (h : t.any (fun r => key r == key row) = false) :
    ((t ++ [row]).find? (fun r => key r == key row)) = some row := by
  induction t with
  | nil => simp [List.find?]
  | cons a t ih =>
    have ha : (key a == key row) = false := by
      rcases List.any_eq_false.mp h a (List.mem_cons_self _ _) with ha
      simpa using ha
    simp only [List.cons_append, List.find?, ha]
    exact ih (List.any_eq_false.mpr fun x hx =>
      List.any_eq_false.mp h x (List.mem_cons_of_mem _ hx))

/-- After an upsert, looking the row up by its key finds exactly the new
row. -/
theorem find?_upsertBy (key : α → String) (tbl : List α) (row : α) :
    (upsertBy key tbl row).find? (fun r => key r == key row) = some row := by
  unfold upsertBy
  by_cases h : tbl.any (fun r => key r == key row)
  · rw [if_pos h]
    exact find?_map_replace key tbl row h
  · rw [if_neg h]
    exact find?_append_missing key tbl row (by simpa using h)

/-- The upserted row is in the table afterwards. -/
theorem mem_upsertBy (key : α → String) (tbl : List α) (row : α) :
    row ∈ upsertBy key tbl row :=
  List.mem_of_find?_eq_some (find?_upsertBy key tbl row)

/-- A fetch-state write leaves the category row it wrote, with the attempt
time stamped, the given status and message, the counter incremented from the
stored value on error and reset otherwise, and the success time stamped only
on success. -/
theorem findFetchRow_updateFetchState (st : Db) (category : String)
    (status : FetchStatus) (errorMsg : Option String) (now : ℤ) :
    findFetchRow (updateFetchState st category status errorMsg now) category =
      some { key := category,
             lastSuccessTs := if status = .success then some now
                              else (findFetchRow st category).bind
                                (fun s => s.lastSuccessTs),
             lastAttemptTs := some now,
             lastStatus := status,
             lastError := errorMsg,
             consecutiveFailures :=
               if status = .error then
                 (match findFetchRow st category with
                  | some s => s.consecutiveFailures
                  | none => 0) + 1
               else 0 } := by
  unfold updateFetchState findFetchRow
  exact find?_upsertBy (fun r => r.key) st.fetch
    { key := category,
      lastSuccessTs := if status = .success then some now
                       else (st.fetch.find? (fun r => r.key == category)).bind
                         (fun s => s.lastSuccessTs),
      lastAttemptTs := some now,
      lastStatus := status,
      lastError := errorMsg,
      consecutiveFailures :=
        if status = .error then
          (match st.fetch.find? (fun r => r.key == category) with
           | some s => s.consecutiveFailures
           | none => 0) + 1
        else 0 }

/-- A fetch-state write does not touch the historical table. -/
theorem updateFetchState_hist (st : Db) (c : String) (s : FetchStatus)
    (m : Option String) (n : ℤ) : (updateFetchState st c s m n).hist = st.hist := rfl

/-- A fetch-state write does not touch the snapshot table. -/
theorem updateFetchState_latest (st : Db) (c : String) (s : FetchStatus)
    (m : Option String) (n : ℤ) : (updateFetchState st c s m n).latest = st.latest := rfl

/-- Storing historical quotes does not touch the snapshot table. -/
theorem storeQuotes_latest (st : Db) (qs : List NormalizedQuote) :
    (storeQuotes st qs).latest = st.latest := rfl

/-- Storing historical quotes does not touch the fetch-state table. -/
theorem storeQuotes_fetch (st : Db) (qs : List NormalizedQuote) :
    (storeQuotes st qs).fetch = st.fetch := rfl

/-- Batch-storing historical quotes does not touch the snapshot table. -/
theorem storeQuotesBatch_latest (st : Db) (qs : List NormalizedQuote) :
    (storeQuotesBatch st qs).latest = st.latest := rfl

/-- Batch-storing historical quotes does not touch the fetch-state table. -/
theorem storeQuotesBatch_fetch (st : Db) (qs : List NormalizedQuote) :
    (storeQuotesBatch st qs).fetch = st.fetch := rfl

/-- The snapshot upsert loop does not touch the historical table. -/
theorem updateLatestQuotes_hist (st : Db) (qs : List NormalizedQuote) :
    (updateLatestQuotes st qs).hist = st.hist := by
  induction qs generalizing st with
  | nil => rfl
  | cons q t ih => exact ih (updateLatestQuotesStep st q)

/-- The snapshot upsert loop does not touch the fetch-state table. -/
theorem updateLatestQuotes_fetch (st : Db) (qs : List NormalizedQuote) :
    (updateLatestQuotes st qs).fetch = st.fetch := by
  induction qs generalizing st with
  | nil => rfl
  | cons q t ih => exact ih (updateLatestQuotesStep st q)

/-- A metals refresh whose guard passed ran the primary fetch once and
stamped the attempt time in its terminal fetch-state row. -/
theorem refreshMetals_attempt (st : Db) (now : ℤ) (cf : Option String)
    (p h : Except String (List NormalizedQuote))
    (hcan : canRefresh st "metals" now = true) :
    (refreshMetals st now cf p h).primaryCalls = 1 ∧
    ∃ row, findFetchRow (refreshMetals st now cf p h).db "metals" = some row ∧
      row.lastAttemptTs = some now := by
  cases p with
  | error e =>
    simp only [refreshMetals, hcan, if_true]
    exact ⟨by trivial, _, findFetchRow_updateFetchState .., rfl⟩
  | ok qs =>
    by_cases hq : qs.isEmpty
    · simp only [refreshMetals, hcan, if_true, hq]
      exact ⟨by trivial, _, findFetchRow_updateFetchState .., rfl⟩
    · simp only [refreshMetals, hcan, if_true, hq]
      exact ⟨by trivial, _, findFetchRow_updateFetchState .., rfl⟩

/-- A metals refresh rejected by the cooldown guard changes nothing and does
not fetch. -/
theorem refreshMetals_guard_false (st : Db) (now : ℤ) (cf : Option String)
    (p h : Except String (List NormalizedQuote))
    (hcan : canRefresh st "metals" now = false) :
    refreshMetals st now cf p h =
      { db := st, success := false, quotesCount := 0,
        primaryCalls := 0, fallbackCalls := 0 } := by
  unfold refreshMetals
  rw [if_neg (by simp [hcan])]

/-- A forex refresh whose guard passed ran the primary fetch once and
stamped the attempt time in its terminal fetch-state row. -/
theorem refreshForex_attempt (st : Db) (now : ℤ)
    (p f : Except String (List NormalizedQuote))
    (hcan : canRefresh st "fx" now = true) :
    (refreshForex st now p f).primaryCalls = 1 ∧
    ∃ row, findFetchRow (refreshForex st now p f).db "fx" = some row ∧
      row.lastAttemptTs = some now := by
  rcases p with e | qs
  · rcases f with e2 | fq
    · simp only [refreshForex, hcan, if_true]
      exact ⟨by trivial, _, findFetchRow_updateFetchState .., rfl⟩
    · by_cases hf : fq.isEmpty
      · simp only [refreshForex, hcan, if_true, hf]
        exact ⟨by trivial, _, findFetchRow_updateFetchState .., rfl⟩
      · simp only [refreshForex, hcan, if_true, hf]
        exact ⟨by trivial, _, findFetchRow_updateFetchState .., rfl⟩
  · by_cases hq : qs.isEmpty
    · rcases f with e2 | fq
      · simp only [refreshForex, hcan, if_true, hq]
        exact ⟨by trivial, _, findFetchRow_updateFetchState .., rfl⟩
      · by_cases hf : fq.isEmpty
        · simp only [refreshForex, hcan, if_true, hq, hf]
          exact ⟨by trivial, _, findFetchRow_updateFetchState .., rfl⟩
        · simp only [refreshForex, hcan, if_true, hq, hf]
          exact ⟨by trivial, _, findFetchRow_updateFetchState .., rfl⟩
    · simp only [refreshForex, hcan, if_true, hq]
      exact ⟨by trivial, _, findFetchRow_updateFetchState .., rfl⟩

/-- A forex refresh rejected by the cooldown guard changes nothing and does
not fetch. -/
theorem refreshForex_guard_false (st : Db) (now : ℤ)
    (p f : Except String (List NormalizedQuote))
    (hcan : canRefresh st "fx" now = false) :
    refreshForex st now p f =
      { db := st, success := false, quotesCount := 0,
        primaryCalls := 0, fallbackCalls := 0 } := by
  unfold refreshForex
  rw [if_neg (by simp [hcan])]

/-- With a fetch-state row holding a positive attempt time, the guard is
exactly the ten-second comparison. -/
theorem canRefresh_of_attempt (st : Db) (c : String) (now t : ℤ) (row : FetchRow)
    (hfind : findFetchRow st c = some row)
    (ht : row.lastAttemptTs = some t) (htz : t ≠ 0) :
    canRefresh st c now = decide ((now - t) * 1000 ≥ cooldownMs) := by
  unfold canRefresh
  rw [hfind]
  simp only []
  rw [ht]
  simp [htz]


/-- C1: after any completed refresh attempt that ends in error, the
consecutive-failure counter is 1, regardless of its value before the attempt
began: the in_progress write at the start of the attempt resets it to zero,
so two straight failed metals attempts leave the counter at 1, not 2, and
the alert threshold of 5 is unreachable through the refresh paths. -/
theorem consecutiveFailures_reset_by_in_progress :
    ((findFetchRow (refreshMetals emptyDb 100 none
        (.error "Truncgil API error: 500") (.ok [])).db "metals").map
      (fun s => s.consecutiveFailures) = some 1) ∧
    ((findFetchRow (refreshMetals
        (refreshMetals emptyDb 100 none
          (.error "Truncgil API error: 500") (.ok [])).db 120 none
        (.error "Truncgil API error: 500") (.ok [])).db "metals").map
      (fun s => s.consecutiveFailures) = some 1) ∧
    ¬((findFetchRow (refreshMetals
        (refreshMetals emptyDb 100 none
          (.error "Truncgil API error: 500") (.ok [])).db 120 none
        (.error "Truncgil API error: 500") (.ok [])).db "metals").map
      (fun s => s.consecutiveFailures) = some 2) := by
  refine ⟨by decide, by decide, by decide⟩

/-- C2: evaluation of the localized-decimal price parsers.  The Turkish
format cases parse as specified; the dot-decimal case parses as specified in
the Haremaltin parser; the currency-symbol case parses as specified only in
the part_018 variant of the Truncgil parser, while the Truncgil parser at
src/src/services/data-sources/truncgil.service.ts yields NaN on it and the
Haremaltin parser yields 0. -/
theorem parsePrice_localized_eval :
    truncgil_parsePrice "6.942,61" = .num (694261 / 100) ∧
    truncgil_parsePrice "123,45" = .num (12345 / 100) ∧
    haremaltin_parsePrice "7356.1000" = .num (73561 / 10) ∧
    truncgilAlt_parsePrice "$5.096,79" = .num (509679 / 100) ∧
    truncgil_parsePrice "$5.096,79" = .nan ∧
    haremaltin_parsePrice "$5.096,79" = .num 0 := by
  refine ⟨?_, ?_, ?_, ?_, by decide, by decide⟩
  · have h : truncgil_parsePrice "6.942,61" = .num (mkRat 694261 100) := by decide
    rw [h, mkRat_eq_div']
    simp only [JSNum.num.injEq]
    norm_num
  · have h : truncgil_parsePrice "123,45" = .num (mkRat 12345 100) := by decide
    rw [h, mkRat_eq_div']
    simp only [JSNum.num.injEq]
    norm_num
  · have h : haremaltin_parsePrice "7356.1000" = .num (mkRat 73561 10) := by decide
    rw [h, mkRat_eq_div']
    simp only [JSNum.num.injEq]
    norm_num
  · have h : truncgilAlt_parsePrice "$5.096,79" = .num (mkRat 509679 100) := by decide
    rw [h, mkRat_eq_div']
    simp only [JSNum.num.injEq]
    norm_num


/-- C3: the snapshot row written by the latest-quotes upsert for a quote
carries, as its 24h-ago reference, the price and timestamp of the oldest
historical row of the same instrument inside the 12-hour window either side
of the point 24 hours before the quote's timestamp (the time the live quote
was taken), and null for both fields when no such row exists. -/
theorem latest_upsert_window (st : Db) (q : NormalizedQuote) :
    (latestRowOfQuote st.hist q ∈ (updateLatestQuotesStep st q).latest) ∧
    (latestRowOfQuote st.hist q).price24hAgo =
      (findQuote24h st.hist q).map (fun r => r.price) ∧
    (latestRowOfQuote st.hist q).ts24hAgo =
      (findQuote24h st.hist q).map (fun r => r.ts) ∧
    ((∀ r ∈ st.hist, r.instrumentId = q.instrumentId →
        q.ts - 24 * 60 * 60 - 12 * 60 * 60 ≤ r.ts →
        r.ts ≤ q.ts - 24 * 60 * 60 + 12 * 60 * 60 → False) →
      (latestRowOfQuote st.hist q).price24hAgo = none ∧
      (latestRowOfQuote st.hist q).ts24hAgo = none) ∧
    (∀ r, findQuote24h st.hist q = some r →
      r ∈ st.hist ∧ r.instrumentId = q.instrumentId ∧
      q.ts - 24 * 60 * 60 - 12 * 60 * 60 ≤ r.ts ∧
      r.ts ≤ q.ts - 24 * 60 * 60 + 12 * 60 * 60 ∧
      (latestRowOfQuote st.hist q).price24hAgo = some r.price ∧
      (latestRowOfQuote st.hist q).ts24hAgo = some r.ts ∧
      (∀ x ∈ st.hist, x.instrumentId = q.instrumentId →
        q.ts - 24 * 60 * 60 - 12 * 60 * 60 ≤ x.ts →
        x.ts ≤ q.ts - 24 * 60 * 60 + 12 * 60 * 60 → r.ts ≤ x.ts)) := by
  refine ⟨mem_upsertBy _ _ _, rfl, rfl, ?_, ?_⟩
  · intro hno
    have hfil : st.hist.filter (fun r =>
        r.instrumentId == q.instrumentId &&
        decide (q.ts - 24 * 60 * 60 - 12 * 60 * 60 ≤ r.ts) &&
        decide (r.ts ≤ q.ts - 24 * 60 * 60 + 12 * 60 * 60)) = [] := by
      rw [List.filter_eq_nil_iff]
      intro r hr
      intro hp
      simp only [Bool.and_eq_true, beq_iff_eq, decide_eq_true_eq] at hp
      exact hno r hr hp.1.1 hp.1.2 hp.2
    have : findQuote24h st.hist q = none := by
      show minTsRow (List.filter (fun r =>
          r.instrumentId == q.instrumentId &&
          decide (q.ts - 24 * 60 * 60 - 12 * 60 * 60 ≤ r.ts) &&
          decide (r.ts ≤ q.ts - 24 * 60 * 60 + 12 * 60 * 60)) st.hist) = none
      rw [hfil]
      rfl
    constructor
    · show (findQuote24h st.hist q).map (fun r => r.price) = none
      rw [this]
      rfl
    · show (findQuote24h st.hist q).map (fun r => r.ts) = none
      rw [this]
      rfl
  · intro r hr
    have hmem := minTsRow_mem hr
    have hle := minTsRow_le hr
    rw [List.mem_filter] at hmem
    obtain ⟨hmem, hp⟩ := hmem
    simp only [Bool.and_eq_true, beq_iff_eq, decide_eq_true_eq] at hp
    refine ⟨hmem, hp.1.1, hp.1.2, hp.2, ?_, ?_, ?_⟩
    · show (findQuote24h st.hist q).map (fun x => x.price) = some r.price
      rw [hr]
      rfl
    · show (findQuote24h st.hist q).map (fun x => x.ts) = some r.ts
      rw [hr]
      rfl
    · intro x hx hxi hx1 hx2
      refine hle x ?_
      rw [List.mem_filter]
      exact ⟨hx, by simp only [Bool.and_eq_true, beq_iff_eq, decide_eq_true_eq]; exact ⟨⟨hxi, hx1⟩, hx2⟩⟩


/-- One metals-backfill iteration touches only the historical table. -/
theorem backfillMetalsStep_frame (bufferTs : ℤ)
    (results : String → Except String (List NormalizedQuote))
    (acc : BackfillTally) (entry : String × String) :
    (backfillMetalsStep bufferTs results acc entry).db.latest = acc.db.latest ∧
    (backfillMetalsStep bufferTs results acc entry).db.fetch = acc.db.fetch := by
  constructor
  · unfold backfillMetalsStep
    split
    · rfl
    · split
      · rfl
      · split
        · rfl
        · rfl
  · unfold backfillMetalsStep
    split
    · rfl
    · split
      · rfl
      · split
        · rfl
        · rfl

/-- A metals-backfill instrument loop touches only the historical table. -/
theorem backfillMetalsFold_frame (bufferTs : ℤ)
    (results : String → Except String (List NormalizedQuote)) :
    ∀ (l : List (String × String)) (acc : BackfillTally),
      ((l.foldl (backfillMetalsStep bufferTs results) acc).db.latest =
        acc.db.latest) ∧
      ((l.foldl (backfillMetalsStep bufferTs results) acc).db.fetch =
        acc.db.fetch) := by
  intro l
  induction l with
  | nil => exact fun acc => ⟨rfl, rfl⟩
  | cons e t ih =>
    intro acc
    have hstep := backfillMetalsStep_frame bufferTs results acc e
    have ht := ih (backfillMetalsStep bufferTs results acc e)
    exact ⟨ht.1.trans hstep.1, ht.2.trans hstep.2⟩

/-- C9: neither historical backfill ever writes the latest-snapshot table:
for every starting database and every outcome of the archive fetches, the
snapshot table after backfillHistoricalForex and after
backfillHistoricalMetals is exactly the snapshot table before. -/
theorem backfill_preserves_latest (st : Db) (cutoffTs : ℤ)
    (fetched : List NormalizedQuote) (cf : Option String)
    (haremResults altinResults : String → Except String (List NormalizedQuote)) :
    (backfillHistoricalForex st cutoffTs fetched).db.latest = st.latest ∧
    ((backfillHistoricalMetals st cf cutoffTs haremResults altinResults).1).db.latest
      = st.latest := by
  constructor
  · unfold backfillHistoricalForex
    by_cases h1 : hasHistoricalData "fx" st cutoffTs
    · rw [if_pos h1]
    · rw [if_neg h1]
      by_cases h2 : fetched.isEmpty
      · rw [if_pos h2]
      · rw [if_neg h2]
        rfl
  · rcases cf with _ | c
    · rfl
    · have h1 := backfillMetalsFold_frame (cutoffTs + 30 * 24 * 60 * 60)
        haremResults BACKFILL_INSTRUMENTS
        { db := st, totalQuotes := 0, skippedCount := 0, failedCount := 0 }
      have h2 := backfillMetalsFold_frame (cutoffTs + 30 * 24 * 60 * 60)
        altinResults ALTININ_BACKFILL_INSTRUMENTS
        (BACKFILL_INSTRUMENTS.foldl
          (backfillMetalsStep (cutoffTs + 30 * 24 * 60 * 60) haremResults)
          { db := st, totalQuotes := 0, skippedCount := 0, failedCount := 0 })
      simp only [backfillHistoricalMetals]
      exact h2.1.trans h1.1

/-- C8: a historical TCMB fetch that hits a 404 (no data for that date)
returns the empty list, and the forex backfill path never writes the
fetch-state table at all, so neither the status nor the consecutive-failure
counter can change; with the empty 404 result the whole database is left
untouched. -/
theorem tcmb_404_no_data :
    (∀ now histTs : ℤ, fetchHistoricalFx .notFound now histTs = []) ∧
    (∀ (st : Db) (cutoffTs : ℤ) (fetched : List NormalizedQuote),
      (backfillHistoricalForex st cutoffTs fetched).db.fetch = st.fetch) ∧
    (∀ (st : Db) (cutoffTs now histTs : ℤ),
      (backfillHistoricalForex st cutoffTs
        (fetchHistoricalFx .notFound now histTs)).db = st) := by
  refine ⟨fun now histTs => rfl, ?_, ?_⟩
  · intro st cutoffTs fetched
    unfold backfillHistoricalForex
    by_cases h1 : hasHistoricalData "fx" st cutoffTs
    · rw [if_pos h1]
    · rw [if_neg h1]
      by_cases h2 : fetched.isEmpty
      · rw [if_pos h2]
      · rw [if_neg h2]
        rfl
  · intro st cutoffTs now histTs
    unfold backfillHistoricalForex
    by_cases h1 : hasHistoricalData "fx" st cutoffTs
    · rw [if_pos h1]
    · rw [if_neg h1]
      rfl


/-- C7 counterexample: a database whose only historical row belongs to the
metals instrument gram makes hasHistoricalData true for the fx scope, and
the forex backfill is skipped (no insert happens) even though a nonempty
archive result was available and the database holds no fx row at all. -/
theorem hasHistoricalData_unscoped_skip :
    (fxInstrumentIds.all (fun fid =>
      metalsOnlyDb.hist.all (fun r => r.instrumentId != fid))) = true ∧
    hasHistoricalData "fx" metalsOnlyDb sampleCutoffTs = true ∧
    (backfillHistoricalForex metalsOnlyDb sampleCutoffTs sampleFxFetched).db =
      metalsOnlyDb ∧
    (backfillHistoricalForex metalsOnlyDb sampleCutoffTs sampleFxFetched).quotesCount
      = 0 ∧
    sampleFxFetched ≠ [] := by
  refine ⟨by decide, by decide, rfl, rfl, by decide⟩

/-- C7 as the code has it: hasHistoricalData ignores its category argument
entirely; it is true exactly when some historical row, of any instrument and
category, is at or before the cutoff plus the 30-day buffer (equivalently,
when the globally oldest row is); only the inline per-instrument check of
the metals backfill is scoped, to its instrument. -/
theorem hasHistoricalData_global (st : Db) (cutoffTs : ℤ) :
    (∀ c1 c2 : String,
      hasHistoricalData c1 st cutoffTs = hasHistoricalData c2 st cutoffTs) ∧
    (hasHistoricalData "fx" st cutoffTs = true ↔
      ∃ r ∈ st.hist, r.ts ≤ cutoffTs + 30 * 24 * 60 * 60) ∧
    (∀ (instrumentId : String) (bufferTs : ℤ),
      (metalsOldestCheck st instrumentId bufferTs).isSome = true ↔
      ∃ r ∈ st.hist, r.instrumentId = instrumentId ∧ r.ts ≤ bufferTs) := by
  refine ⟨fun c1 c2 => rfl, ?_, ?_⟩
  · unfold hasHistoricalData
    rcases hmin : minTsRow st.hist with _ | m
    · have : st.hist = [] := minTsRow_eq_none.mp hmin
      simp [this]
    · have hmem := minTsRow_mem hmin
      have hle := minTsRow_le hmin
      simp only [decide_eq_true_eq]
      constructor
      · intro h
        exact ⟨m, hmem, h⟩
      · rintro ⟨r, hr, hrle⟩
        exact le_trans (hle r hr) hrle
  · intro instrumentId bufferTs
    unfold metalsOldestCheck
    rcases hmin : minTsRow (st.hist.filter (fun r =>
        r.instrumentId == instrumentId && decide (r.ts ≤ bufferTs))) with _ | m
    · have hnil := minTsRow_eq_none.mp hmin
      simp only [Option.isSome_none, Bool.false_eq_true, false_iff]
      rintro ⟨r, hr, hri, hrle⟩
      have : r ∈ st.hist.filter (fun r =>
          r.instrumentId == instrumentId && decide (r.ts ≤ bufferTs)) := by
        rw [List.mem_filter]
        exact ⟨hr, by simp [hri, hrle]⟩
      rw [hnil] at this
      exact List.not_mem_nil r this
    · have hmem := minTsRow_mem hmin
      rw [List.mem_filter] at hmem
      simp only [Option.isSome_some, true_iff]
      refine ⟨m, hmem.1, ?_, ?_⟩
      · have := hmem.2
        simp only [Bool.and_eq_true, beq_iff_eq, decide_eq_true_eq] at this
        exact this.1
      · have := hmem.2
        simp only [Bool.and_eq_true, beq_iff_eq, decide_eq_true_eq] at this
        exact this.2


/-- C5 counterexample: with a gram entry whose buy side parses to the number
zero (not null), the derived 14ayar quote is appended with a null buy, not
with zero times 14 / 24, because the JS conditional treats a zero buy as
falsy. -/
theorem derived_zero_buy_is_null :
    ((truncgilBaseQuotes zeroBuySample 0).find?
        (fun q => q.instrumentId == "gram")).map (fun q => q.buy) =
      some (some (.num 0)) ∧
    ((parseToQuotes zeroBuySample 0).find?
        (fun q => q.instrumentId == "14ayar")).map (fun q => q.buy) =
      some none ∧
    (some (jmul (.num 0) (.num (mkRat 14 24))) : Option JSNum) ≠ none := by
  refine ⟨by decide, by decide, by decide⟩

/-- C5 as the code has it: every base quote carries source truncgil; when a
gram base quote with price P, buy B, sell S was parsed, a 14ayar quote is
appended whose price is P times 14 / 24, whose buy is B times the ratio when
B is a nonzero number and null when B is null, zero or NaN (and likewise for
sell), tagged truncgil_calculated; when a gumus_gram quote is present the
analogous ounce quote scaled by the fixed constant 28.3495 grams per ounce
is appended with the same tag; and on finite values the scaling is exact
rational multiplication. -/
theorem truncgil_derived_quotes (data : List (String × TruncgilMetalData)) (now : ℤ) :
    (∀ q ∈ truncgilBaseQuotes data now, q.source = "truncgil") ∧
    (∀ g, (truncgilBaseQuotes data now).find?
        (fun q => q.instrumentId == "gram") = some g →
      ({ instrumentId := "14ayar", ts := now,
         price := jmul g.price (.num (mkRat 14 24)),
         buy := if optTruthy g.buy
                then g.buy.map (fun b => jmul b (.num (mkRat 14 24))) else none,
         sell := if optTruthy g.sell
                 then g.sell.map (fun s => jmul s (.num (mkRat 14 24))) else none,
         source := "truncgil_calculated" } : NormalizedQuote) ∈
        parseToQuotes data now) ∧
    (∀ g, ((truncgilBaseQuotes data now ++
          derive14ayar (truncgilBaseQuotes data now) now).find?
        (fun q => q.instrumentId == "gumus_gram") = some g) →
      ({ instrumentId := "gumus_ons", ts := now,
         price := jmul g.price (.num (mkRat 283495 10000)),
         buy := if optTruthy g.buy
                then g.buy.map (fun b => jmul b (.num (mkRat 283495 10000))) else none,
         sell := if optTruthy g.sell
                 then g.sell.map (fun s => jmul s (.num (mkRat 283495 10000))) else none,
         source := "truncgil_calculated" } : NormalizedQuote) ∈
        parseToQuotes data now) ∧
    (∀ x : ℚ, jmul (.num x) (.num (mkRat 14 24)) = .num (x * (14 / 24))) ∧
    (∀ x : ℚ, jmul (.num x) (.num (mkRat 283495 10000)) =
      .num (x * (283495 / 10000))) := by
  refine ⟨?_, ?_, ?_, ?_, ?_⟩
  · intro q hq
    unfold truncgilBaseQuotes at hq
    rw [List.mem_filterMap] at hq
    obtain ⟨mapping, hmem, hf⟩ := hq
    split at hf
    · exact Option.noConfusion hf
    · cases hf
      rfl
  · intro g hg
    unfold parseToQuotes
    have h14 : derive14ayar (truncgilBaseQuotes data now) now =
        [{ instrumentId := "14ayar", ts := now,
           price := jmul g.price (.num (mkRat 14 24)),
           buy := if optTruthy g.buy
                  then g.buy.map (fun b => jmul b (.num (mkRat 14 24))) else none,
           sell := if optTruthy g.sell
                   then g.sell.map (fun s => jmul s (.num (mkRat 14 24))) else none,
           source := "truncgil_calculated" }] := by
      unfold derive14ayar
      rw [hg]
    rw [List.mem_append, List.mem_append]
    exact Or.inl (Or.inr (h14 ▸ List.mem_singleton_self _))
  · intro g hg
    unfold parseToQuotes
    have hons : deriveGumusOns (truncgilBaseQuotes data now ++
        derive14ayar (truncgilBaseQuotes data now) now) now =
        [{ instrumentId := "gumus_ons", ts := now,
           price := jmul g.price (.num (mkRat 283495 10000)),
           buy := if optTruthy g.buy
                  then g.buy.map (fun b => jmul b (.num (mkRat 283495 10000))) else none,
           sell := if optTruthy g.sell
                   then g.sell.map (fun s => jmul s (.num (mkRat 283495 10000))) else none,
           source := "truncgil_calculated" }] := by
      unfold deriveGumusOns
      rw [hg]
    rw [List.mem_append]
    exact Or.inr (hons ▸ List.mem_singleton_self _)
  · intro x
    rw [jmul_num]
    have : (mkRat 14 24 : ℚ) = 14 / 24 := by
      rw [mkRat_eq_div']
      norm_num
    rw [this]
  · intro x
    rw [jmul_num]
    have : (mkRat 283495 10000 : ℚ) = 283495 / 10000 := by
      rw [mkRat_eq_div']
      norm_num
    rw [this]


/-- C10: for a mapped TCMB currency record in which exactly one of the two
forex sides parses to a positive number b and the other side parses to zero
(empty, missing, or literal zero), the parser still emits a quote for the
mapped instrument: the absent side is null, the present side is kept, and
the price is b / 2 — half the present side, not the present side itself. -/
theorem tcmb_one_sided_half_price (cs : List TcmbCurrency) (now : ℤ)
    (code instrumentId : String) (c : TcmbCurrency) (b : ℚ)
    (hmap : (code, instrumentId) ∈ FOREX_MAPPINGS)
    (hfind : cs.find? (fun x => x.currencyCode == code) = some c)
    (hb : 0 < b) :
    (parseFloat (strOrZero c.forexBuying) = .num b →
     parseFloat (strOrZero c.forexSelling) = .num 0 →
      ∃ q ∈ tcmbParseQuotes cs now, q.instrumentId = instrumentId ∧
        q.buy = some (.num b) ∧ q.sell = none ∧
        q.price = .num (b / 2) ∧ q.price ≠ .num b) ∧
    (parseFloat (strOrZero c.forexSelling) = .num b →
     parseFloat (strOrZero c.forexBuying) = .num 0 →
      ∃ q ∈ tcmbParseQuotes cs now, q.instrumentId = instrumentId ∧
        q.sell = some (.num b) ∧ q.buy = none ∧
        q.price = .num (b / 2) ∧ q.price ≠ .num b) := by
  have hmem : tcmbQuoteOf c instrumentId now ∈ tcmbParseQuotes cs now := by
    unfold tcmbParseQuotes
    refine List.mem_append_left _ ?_
    unfold tcmbBaseQuotes
    rw [List.mem_filterMap]
    refine ⟨(code, instrumentId), hmap, ?_⟩
    rw [hfind]
    rfl
  have hhalf : ((b + 0) / 2 : ℚ) = b / 2 := by norm_num
  have hne : JSNum.num ((b + 0) / 2) ≠ .num b := by
    rw [hhalf]
    intro hcon
    injection hcon with hcon
    have : b = 0 := by linarith
    exact absurd this (ne_of_gt hb)
  constructor
  · intro hbuy hsell
    refine ⟨tcmbQuoteOf c instrumentId now, hmem, rfl, ?_, ?_, ?_, ?_⟩
    · show (if jgtZero (parseFloat (strOrZero c.forexBuying)) then
          some (parseFloat (strOrZero c.forexBuying)) else none) = some (.num b)
      rw [hbuy]
      simp [jgtZero, hb]
    · show (if jgtZero (parseFloat (strOrZero c.forexSelling)) then
          some (parseFloat (strOrZero c.forexSelling)) else none) = none
      rw [hsell]
      simp [jgtZero]
    · show jdiv (jadd (parseFloat (strOrZero c.forexBuying))
          (parseFloat (strOrZero c.forexSelling))) (.num 2) = .num (b / 2)
      rw [hbuy, hsell, jadd_num, jdiv_num _ _ (by norm_num), hhalf]
    · show jdiv (jadd (parseFloat (strOrZero c.forexBuying))
          (parseFloat (strOrZero c.forexSelling))) (.num 2) ≠ .num b
      rw [hbuy, hsell, jadd_num, jdiv_num _ _ (by norm_num)]
      exact hne
  · intro hsell hbuy
    refine ⟨tcmbQuoteOf c instrumentId now, hmem, rfl, ?_, ?_, ?_, ?_⟩
    · show (if jgtZero (parseFloat (strOrZero c.forexSelling)) then
          some (parseFloat (strOrZero c.forexSelling)) else none) = some (.num b)
      rw [hsell]
      simp [jgtZero, hb]
    · show (if jgtZero (parseFloat (strOrZero c.forexBuying)) then
          some (parseFloat (strOrZero c.forexBuying)) else none) = none
      rw [hbuy]
      simp [jgtZero]
    · show jdiv (jadd (parseFloat (strOrZero c.forexBuying))
          (parseFloat (strOrZero c.forexSelling))) (.num 2) = .num (b / 2)
      rw [hbuy, hsell, jadd_num, jdiv_num _ _ (by norm_num)]
      norm_num
    · show jdiv (jadd (parseFloat (strOrZero c.forexBuying))
          (parseFloat (strOrZero c.forexSelling))) (.num 2) ≠ .num b
      rw [hbuy, hsell, jadd_num, jdiv_num _ _ (by norm_num)]
      intro hcon
      injection hcon with hcon
      have : b = 0 := by linarith
      exact absurd this (ne_of_gt hb)

/-- C10 witness: a concrete USD record with only the buying side present
yields a USDTRY quote with null sell and price half the buying rate. -/
theorem tcmb_one_sided_half_price_witness :
    ∃ q ∈ tcmbParseQuotes [sampleUsdCurrency] 0, q.instrumentId = "USDTRY" ∧
      q.buy = some (.num (mkRat 21 2)) ∧ q.sell = none ∧
      q.price = .num (mkRat 21 2 / 2) ∧ q.price ≠ .num (mkRat 21 2) :=
  (tcmb_one_sided_half_price [sampleUsdCurrency] 0 "USD" "USDTRY"
    sampleUsdCurrency (mkRat 21 2) (by decide) (by decide) (by decide)).1
    (by decide) (by decide)


/-- C6: per category, two refresh calls less than ten seconds apart result
in exactly one primary-adapter invocation (the second call is rejected by
the guard and leaves everything unchanged); calls at least ten seconds apart
both invoke the adapter; and a category with no fetch-state row always
passes the guard.  Attempt times are positive (they are wall-clock Unix
seconds). -/
theorem refresh_cooldown (st : Db) (t1 t2 : ℤ) (cf : Option String)
    (p1 h1 p2 h2 f1 f2 g1 g2 : Except String (List NormalizedQuote))
    (hpos : 0 < t1)
    (hm : canRefresh st "metals" t1 = true)
    (hx : canRefresh st "fx" t1 = true) :
    ((refreshMetals st t1 cf p1 h1).primaryCalls = 1 ∧
     (t2 - t1 < 10 →
       (refreshMetals (refreshMetals st t1 cf p1 h1).db t2 cf p2 h2).primaryCalls
           = 0 ∧
       (refreshMetals (refreshMetals st t1 cf p1 h1).db t2 cf p2 h2).db =
         (refreshMetals st t1 cf p1 h1).db ∧
       (refreshMetals st t1 cf p1 h1).primaryCalls +
         (refreshMetals (refreshMetals st t1 cf p1 h1).db t2 cf p2 h2).primaryCalls
           = 1) ∧
     (10 ≤ t2 - t1 →
       (refreshMetals (refreshMetals st t1 cf p1 h1).db t2 cf p2 h2).primaryCalls
           = 1)) ∧
    ((refreshForex st t1 f1 g1).primaryCalls = 1 ∧
     (t2 - t1 < 10 →
       (refreshForex (refreshForex st t1 f1 g1).db t2 f2 g2).primaryCalls = 0 ∧
       (refreshForex (refreshForex st t1 f1 g1).db t2 f2 g2).db =
         (refreshForex st t1 f1 g1).db) ∧
     (10 ≤ t2 - t1 →
       (refreshForex (refreshForex st t1 f1 g1).db t2 f2 g2).primaryCalls = 1)) ∧
    (∀ (st2 : Db) (c : String) (n : ℤ),
      findFetchRow st2 c = none → canRefresh st2 c n = true) := by
  have hmA := refreshMetals_attempt st t1 cf p1 h1 hm
  obtain ⟨hm1, rowM, hrowM, hattM⟩ := hmA
  have hxA := refreshForex_attempt st t1 f1 g1 hx
  obtain ⟨hx1, rowF, hrowF, hattF⟩ := hxA
  have hcanM := canRefresh_of_attempt (refreshMetals st t1 cf p1 h1).db "metals"
    t2 t1 rowM hrowM hattM (by omega)
  have hcanF := canRefresh_of_attempt (refreshForex st t1 f1 g1).db "fx"
    t2 t1 rowF hrowF hattF (by omega)
  refine ⟨⟨hm1, ?_, ?_⟩, ⟨hx1, ?_, ?_⟩, ?_⟩
  · intro hlt
    have hfalse : canRefresh (refreshMetals st t1 cf p1 h1).db "metals" t2 = false := by
      rw [hcanM]
      simp only [cooldownMs, decide_eq_false_iff_not, not_le]
      omega
    rw [refreshMetals_guard_false _ _ _ _ _ hfalse]
    exact ⟨rfl, rfl, by rw [hm1]; rfl⟩
  · intro hge
    have htrue : canRefresh (refreshMetals st t1 cf p1 h1).db "metals" t2 = true := by
      rw [hcanM]
      simp only [cooldownMs, decide_eq_true_eq]
      omega
    exact (refreshMetals_attempt _ _ _ _ _ htrue).1
  · intro hlt
    have hfalse : canRefresh (refreshForex st t1 f1 g1).db "fx" t2 = false := by
      rw [hcanF]
      simp only [cooldownMs, decide_eq_false_iff_not, not_le]
      omega
    rw [refreshForex_guard_false _ _ _ _ hfalse]
    exact ⟨rfl, rfl⟩
  · intro hge
    have htrue : canRefresh (refreshForex st t1 f1 g1).db "fx" t2 = true := by
      rw [hcanF]
      simp only [cooldownMs, decide_eq_true_eq]
      omega
    exact (refreshForex_attempt _ _ _ _ htrue).1
  · intro st2 c n hnone
    unfold canRefresh
    rw [hnone]

/-- C6 witness: on an empty database, a first metals and fx refresh at time
100 fetches once each, and a second call at time 105 is rejected by the
cooldown while a call at time 110 would pass; the guard also passes with no
prior attempt. -/
theorem refresh_cooldown_witness :
    (0 : ℤ) < 100 ∧ canRefresh emptyDb "metals" 100 = true ∧
    canRefresh emptyDb "fx" 100 = true ∧
    (((refreshMetals emptyDb 100 none (.error "e") (.ok [])).primaryCalls = 1 ∧
     ((105 : ℤ) - 100 < 10 →
       (refreshMetals (refreshMetals emptyDb 100 none (.error "e") (.ok [])).db
           105 none (.error "e") (.ok [])).primaryCalls = 0 ∧
       (refreshMetals (refreshMetals emptyDb 100 none (.error "e") (.ok [])).db
           105 none (.error "e") (.ok [])).db =
         (refreshMetals emptyDb 100 none (.error "e") (.ok [])).db ∧
       (refreshMetals emptyDb 100 none (.error "e") (.ok [])).primaryCalls +
         (refreshMetals (refreshMetals emptyDb 100 none (.error "e") (.ok [])).db
           105 none (.error "e") (.ok [])).primaryCalls = 1) ∧
     ((10 : ℤ) ≤ 105 - 100 →
       (refreshMetals (refreshMetals emptyDb 100 none (.error "e") (.ok [])).db
           105 none (.error "e") (.ok [])).primaryCalls = 1)) ∧
    ((refreshForex emptyDb 100 (.error "e") (.error "e")).primaryCalls = 1 ∧
     ((105 : ℤ) - 100 < 10 →
       (refreshForex (refreshForex emptyDb 100 (.error "e") (.error "e")).db
           105 (.error "e") (.error "e")).primaryCalls = 0 ∧
       (refreshForex (refreshForex emptyDb 100 (.error "e") (.error "e")).db
           105 (.error "e") (.error "e")).db =
         (refreshForex emptyDb 100 (.error "e") (.error "e")).db) ∧
     ((10 : ℤ) ≤ 105 - 100 →
       (refreshForex (refreshForex emptyDb 100 (.error "e") (.error "e")).db
           105 (.error "e") (.error "e")).primaryCalls = 1)) ∧
    (∀ (st2 : Db) (c : String) (n : ℤ),
      findFetchRow st2 c = none → canRefresh st2 c n = true)) :=
  ⟨by decide, by decide, by decide,
   refresh_cooldown emptyDb 100 105 none (.error "e") (.ok []) (.error "e")
     (.ok []) (.error "e") (.error "e") (.error "e") (.error "e")
     (by decide) (by decide) (by decide)⟩


/-- Every quote the ExchangeRate.host fallback parser emits has null buy and
null sell: the feed provides no spread. -/
theorem exchangeRate_null_spread (rates : List (String × ℚ)) (now : ℤ) :
    ∀ q ∈ exchangeRateParseRates rates now, q.buy = none ∧ q.sell = none := by
  intro q hq
  unfold exchangeRateParseRates at hq
  split at hq
  · exact absurd hq (List.not_mem_nil q)
  · split at hq
    · exact absurd hq (List.not_mem_nil q)
    · simp only [List.mem_append] at hq
      rcases hq with hq | hq
      · rw [List.mem_filterMap] at hq
        obtain ⟨mapping, hmem, hf⟩ := hq
        split at hf
        · exact Option.noConfusion hf
        · split at hf
          · exact Option.noConfusion hf
          · cases hf
            exact ⟨rfl, rfl⟩
      · split at hq
        · split at hq
          · rw [List.mem_singleton] at hq
            cases hq
            exact ⟨rfl, rfl⟩
          · exact absurd hq (List.not_mem_nil q)
        · exact absurd hq (List.not_mem_nil q)

/-- C4: whenever the primary TCMB fetch threw or returned an empty list, the
fallback adapter runs exactly once; a nonempty fallback list is persisted as
exactly those quotes with terminal status success; a fallback exception or
empty fallback list ends the refresh in status error with nothing persisted;
and every quote the fallback parser produces has null buy and sell. -/
theorem refreshForex_fallback (st : Db) (now : ℤ)
    (p f : Except String (List NormalizedQuote))
    (hcan : canRefresh st "fx" now = true)
    (hp : (∃ e, p = .error e) ∨ p = .ok []) :
    (refreshForex st now p f).fallbackCalls = 1 ∧
    (refreshForex st now p f).primaryCalls = 1 ∧
    (∀ fq, f = .ok fq → fq ≠ [] →
      (refreshForex st now p f).success = true ∧
      (refreshForex st now p f).quotesCount = fq.length ∧
      (refreshForex st now p f).db.hist = st.hist ++ fq.map histRowOfQuote ∧
      ((findFetchRow (refreshForex st now p f).db "fx").map
        (fun s => s.lastStatus)) = some .success) ∧
    (((∃ e, f = .error e) ∨ f = .ok []) →
      (refreshForex st now p f).success = false ∧
      (refreshForex st now p f).db.hist = st.hist ∧
      (refreshForex st now p f).db.latest = st.latest ∧
      ((findFetchRow (refreshForex st now p f).db "fx").map
        (fun s => s.lastStatus)) = some .error) ∧
    (∀ (rates : List (String × ℚ)) (n2 : ℤ),
      ∀ q ∈ exchangeRateParseRates rates n2, q.buy = none ∧ q.sell = none) := by
  have hprim : ∀ fq, f = .ok fq → ¬fq.isEmpty = true →
      refreshForex st now p f =
        { db := updateFetchState
            (updateLatestQuotes
              (storeQuotes (updateFetchState st "fx" .in_progress none now) fq) fq)
            "fx" .success none now,
          success := true, quotesCount := fq.length,
          primaryCalls := 1, fallbackCalls := 1 } := by
    intro fq hf hne
    subst hf
    rcases hp with ⟨e, hpe⟩ | hpe <;> subst hpe <;>
      simp only [refreshForex, hcan, if_true, List.isEmpty_nil, hne,
        Bool.false_eq_true, if_false, ite_false]
  have herr : ((∃ e, f = .error e) ∨ f = .ok []) →
      refreshForex st now p f =
        { db := updateFetchState (updateFetchState st "fx" .in_progress none now)
            "fx" .error (some "All forex sources failed") now,
          success := false, quotesCount := 0,
          primaryCalls := 1, fallbackCalls := 1 } := by
    intro hfb
    rcases hp with ⟨e, hpe⟩ | hpe <;> subst hpe <;>
      rcases hfb with ⟨e2, hfe⟩ | hfe <;> subst hfe <;>
        simp only [refreshForex, hcan, if_true, List.isEmpty_nil, ite_true]
  refine ⟨?_, ?_, ?_, ?_, exchangeRate_null_spread⟩
  · rcases hp with ⟨e, hpe⟩ | hpe <;> subst hpe <;>
      rcases f with e2 | fq
    · simp only [refreshForex, hcan, if_true]
    · by_cases hq : fq.isEmpty <;>
        simp only [refreshForex, hcan, if_true, hq, Bool.false_eq_true,
          if_false, ite_true, ite_false]
    · simp only [refreshForex, hcan, if_true, List.isEmpty_nil, ite_true]
    · by_cases hq : fq.isEmpty <;>
        simp only [refreshForex, hcan, if_true, List.isEmpty_nil, hq,
          Bool.false_eq_true, if_false, ite_true, ite_false]
  · rcases hp with ⟨e, hpe⟩ | hpe <;> subst hpe <;>
      rcases f with e2 | fq
    · simp only [refreshForex, hcan, if_true]
    · by_cases hq : fq.isEmpty <;>
        simp only [refreshForex, hcan, if_true, hq, Bool.false_eq_true,
          if_false, ite_true, ite_false]
    · simp only [refreshForex, hcan, if_true, List.isEmpty_nil, ite_true]
    · by_cases hq : fq.isEmpty <;>
        simp only [refreshForex, hcan, if_true, List.isEmpty_nil, hq,
          Bool.false_eq_true, if_false, ite_true, ite_false]
  · intro fq hf hne
    have hne2 : ¬fq.isEmpty = true := by
      intro hc
      exact hne (List.isEmpty_iff.mp hc)
    rw [hprim fq hf hne2]
    refine ⟨rfl, rfl, ?_, ?_⟩
    · show (updateFetchState
          (updateLatestQuotes
            (storeQuotes (updateFetchState st "fx" .in_progress none now) fq) fq)
          "fx" .success none now).hist = st.hist ++ fq.map histRowOfQuote
      rw [updateFetchState_hist, updateLatestQuotes_hist]
      rfl
    · rw [findFetchRow_updateFetchState]
      rfl
  · intro hfb
    rw [herr hfb]
    refine ⟨rfl, rfl, rfl, ?_⟩
    rw [findFetchRow_updateFetchState]
    rfl

/-- C4 witness: with an empty primary result and a one-quote fallback
result, the fallback ran once and its quote was persisted with success. -/
theorem refreshForex_fallback_witness :
    canRefresh emptyDb "fx" 100 = true ∧
    ((refreshForex emptyDb 100 (.ok []) (.ok [sampleFallbackQuote])).fallbackCalls = 1 ∧
    (refreshForex emptyDb 100 (.ok []) (.ok [sampleFallbackQuote])).primaryCalls = 1 ∧
    (∀ fq, (Except.ok [sampleFallbackQuote] :
        Except String (List NormalizedQuote)) = .ok fq → fq ≠ [] →
      (refreshForex emptyDb 100 (.ok []) (.ok [sampleFallbackQuote])).success = true ∧
      (refreshForex emptyDb 100 (.ok []) (.ok [sampleFallbackQuote])).quotesCount
        = fq.length ∧
      (refreshForex emptyDb 100 (.ok []) (.ok [sampleFallbackQuote])).db.hist =
        emptyDb.hist ++ fq.map histRowOfQuote ∧
      ((findFetchRow (refreshForex emptyDb 100
          (.ok []) (.ok [sampleFallbackQuote])).db "fx").map
        (fun s => s.lastStatus)) = some .success) ∧
    (((∃ e, (Except.ok [sampleFallbackQuote] :
        Except String (List NormalizedQuote)) = .error e) ∨
      (Except.ok [sampleFallbackQuote] :
        Except String (List NormalizedQuote)) = .ok []) →
      (refreshForex emptyDb 100 (.ok []) (.ok [sampleFallbackQuote])).success = false ∧
      (refreshForex emptyDb 100 (.ok []) (.ok [sampleFallbackQuote])).db.hist =
        emptyDb.hist ∧
      (refreshForex emptyDb 100 (.ok []) (.ok [sampleFallbackQuote])).db.latest =
        emptyDb.latest ∧
      ((findFetchRow (refreshForex emptyDb 100
          (.ok []) (.ok [sampleFallbackQuote])).db "fx").map
        (fun s => s.lastStatus)) = some .error) ∧
    (∀ (rates : List (String × ℚ)) (n2 : ℤ),
      ∀ q ∈ exchangeRateParseRates rates n2, q.buy = none ∧ q.sell = none)) :=
  ⟨by decide,
   refreshForex_fallback emptyDb 100 (.ok []) (.ok [sampleFallbackQuote])
     (by decide) (Or.inr rfl)⟩

end Valora
